import Mathlib

/-!
Verification development for the Tyger-Tyger-Liar-Liar narrative engine.

The repository ships the browser front end (React components, audio, CSS
effects) together with design documents and a changelog describing the
backend narrative state engine (`src/engine/*.py` in the developer guide);
the backend source itself is not part of the excerpt.  Definitions below
that embed the missing engine are therefore modelled from the specification
text and carry a doc comment saying so; the front-end components
`SubliminalText` (MindMap glitch text) and `MindMap`/`stableRandom` are
embedded directly from their JavaScript source.
-/

/-! ## Dice/Check Resolver -/

/-- Outcome tiers of a 2d6+modifier skill check. -/
inductive Outcome where
  | CRITICAL_SUCCESS
  | SUCCESS
  | PARTIAL_SUCCESS
  | FAILURE
  | CRITICAL_FAILURE
deriving DecidableEq, Repr

/-- Modelled from the spec: `resolve(check, playerSkills)` of §4.1, the
missing `src/engine` check resolver.  The caller supplies the pre-modifier
2d6 roll total (the manual-entry override path); a natural 2 (snake eyes)
is CRITICAL_FAILURE and a natural 12 is CRITICAL_SUCCESS regardless of
modifiers (the spec demands the natural-roll rule specifically, not the
modified total); otherwise the tier is a function of
margin = roll + modifiers - dc. -/
def resolve (dc : Int) (modifiers : Int) (roll : Int) : Outcome :=
  if roll = 2 then Outcome.CRITICAL_FAILURE
  else if roll = 12 then Outcome.CRITICAL_SUCCESS
  else
    let margin := roll + modifiers - dc
    if 0 ≤ margin then Outcome.SUCCESS
    else if -2 ≤ margin then Outcome.PARTIAL_SUCCESS
    else Outcome.FAILURE

/-- The margin-only tier table of §4.1, for non-natural rolls. -/
def marginTier (margin : Int) : Outcome :=
  if 0 ≤ margin then Outcome.SUCCESS
  else if -2 ≤ margin then Outcome.PARTIAL_SUCCESS
  else Outcome.FAILURE

/-! ## Theory health -/

/-- Modelled from the spec: `health(theory)` of §4.3, a derived value in
[0,100] computed from evidence_count, contradiction_count and the elapsed
time since last reinforcement scaled by degradation_rate; supporting
evidence raises it, contradictions and decay lower it, clamped to the
[0,100] band. -/
def health (evidence_count contradiction_count : Nat)
    (degradation_rate elapsed : Nat) : Int :=
  max 0 (min 100
    (50 + 10 * (evidence_count : Int) - 10 * (contradiction_count : Int)
       - (degradation_rate : Int) * (elapsed : Int)))

/-- The MindMap front end marks a theory strained when its health is
below 50 (part_012, status indicator fill colour). -/
def isStrained (h : Int) : Bool := h < 50

/-! ## SubliminalText (front-end component, part_011) -/

/-- `panic = Math.max(0, 100 - sanity)` from SubliminalText. -/
def panicLevel (sanity : Int) : Int := max 0 (100 - sanity)

/-- `isUnstable = panic > 40` from SubliminalText: glitching starts only
below 60 sanity. -/
def isUnstable (sanity : Int) : Bool := 40 < panicLevel sanity

/-- The fixed corruption word list of SubliminalText. -/
def CORRUPTIONS : List String :=
  ["WAKE UP", "LIAR", "THEY KNOW", "RUN", "FALSE",
   "LOOK BEHIND", "NULL", "ERROR", "VOID", "NO SIGNAL"]

/-- The rendered output of SubliminalText: a screen-reader-only span with
the original text and an aria-hidden span with the display text. -/
structure SubliminalRender where
  srOnly : String
  visible : String
deriving DecidableEq, Repr

/-- `display = corruption || text` and the two spans returned by
SubliminalText, as a function of the current corruption state.  JavaScript
`||` falls through on the empty string as well as on null. -/
def renderSubliminal (text : String) (corruption : Option String) :
    SubliminalRender :=
  { srOnly := text
    visible :=
      match corruption with
      | none => text
      | some w => if w = "" then text else w }

/-- The corruption states the component's effect can reach for a given
sanity: `corruption` starts as null, and `triggerGlitch` only runs (and
only sets a word from CORRUPTIONS) when `isUnstable`; the effect cleanup
resets it to null when stabilising. -/
def CorruptionReachable (sanity : Int) (c : Option String) : Prop :=
  c = none ∨ (isUnstable sanity = true ∧ ∃ w ∈ CORRUPTIONS, c = some w)

/-! ## stableRandom and MindMap layout (front-end, part_012) -/

/-- JavaScript ToInt32: reduce an exact integer to a signed 32-bit value,
as `hash & hash` and `<<` do in `stableRandom`. -/
def toInt32 (n : Int) : Int := (n + 2 ^ 31) % 2 ^ 32 - 2 ^ 31

/-- One loop iteration of `stableRandom`:
`hash = (hash << 5) - hash + char; hash = hash & hash`.  `hash` is already
a 32-bit value, `<<` truncates to 32 bits, the subtraction and addition
are exact in doubles, and `hash & hash` truncates again. -/
def hashStep (hash : Int) (code : Nat) : Int :=
  toInt32 (toInt32 (hash * 32) - hash + (code : Int))

/-- The full hash loop of `stableRandom` over the seed's character codes
(node ids are ASCII, so code points and UTF-16 units coincide). -/
def jsHash (seed : String) : Int :=
  seed.toList.foldl (fun h c => hashStep h c.toNat) 0

/-- `Math.abs(hash) % 10000` — the numerator of the result. -/
def stableRandomK (seed : String) : Nat := (jsHash seed).natAbs % 10000

/-- `stableRandom(seed) = (Math.abs(hash) % 10000) / 10000`, an exact
rational (the division of an integer below 10^4 by 10^4 is exact in
doubles). -/
def stableRandom (seed : String) : ℚ := (stableRandomK seed : ℚ) / 10000

/-- A node of `boardData.nodes` as MindMap consumes it. -/
structure BNode where
  id : String
  type : String
deriving DecidableEq, Repr

/-- The deterministic jitter MindMap adds to a node's position:
`stableRandom(node.id + '_x') * 50 - 25` and likewise for y. -/
def nodeJitter (id : String) : ℚ × ℚ :=
  (stableRandom (id ++ "_x") * 50 - 25, stableRandom (id ++ "_y") * 50 - 25)

/-- MindMap's processedNodes position computation, with the trigonometric
backend abstracted as rational-valued functions (the browser evaluates
`Math.cos`/`Math.sin` on the same arguments every render): for node i of n,
angle = (i/n)·2π is fed to cos/sin, the radius is 100 for theories and 250
otherwise, and the stableRandom jitter is added. -/
def processedNodes (cosq sinq : ℚ → ℚ) (tau : ℚ) (nodes : List BNode) :
    List (BNode × ℚ × ℚ) :=
  let n := nodes.length
  (List.range n).zip nodes |>.map (fun p =>
    let i := p.1
    let node := p.2
    let angle := ((i : ℚ) / (n : ℚ)) * tau
    let radius : ℚ := if node.type = "theory" then 100 else 250
    let j := nodeJitter node.id
    (node, 800 / 2 + cosq angle * radius + j.1,
           600 / 2 + sinq angle * radius + j.2))

/-! ## The Board (evidence/theory graph), modelled from the spec -/

/-- Theory status per §3: locked, available, active, internalized. -/
inductive TStatus where
  | locked
  | available
  | active
  | internalized
deriving DecidableEq, Repr

/-- Evidence→theory link relation. -/
inductive Relation where
  | supports
  | contradicts
deriving DecidableEq, Repr

/-- Modelled from the spec: the Theory record of §3 (the engine's
`board.py` is not in the excerpt).  Requirements and timing fields that no
claim touches are omitted; the identity, conflict list, status, evidence
tallies, additive skill effects and degradation rate are kept. -/
structure Theory where
  id : String
  conflicts_with : List String
  status : TStatus
  evidence_count : Nat
  contradiction_count : Nat
  effects : List (String × Int)
  degradation_rate : Nat
deriving DecidableEq, Repr

/-- Modelled from the spec: the Evidence record of §3 /
`data/evidence.json` of the developer guide. -/
structure Evidence where
  id : String
  name : String
  etype : String
  case_id : String
  related_skills : List String
  tags : List String
  links_to_theories : List (String × Relation)
deriving DecidableEq, Repr

/-- A link-graph edge {source, target, relation} of §3. -/
structure LinkRec where
  source : String
  target : String
  relation : Relation
deriving DecidableEq, Repr

/-- Modelled from the spec: the Board of §3 — arena-style owner of the
theories, the evidence and the link records. -/
structure Board where
  theories : List Theory
  evidence : List Evidence
  links : List LinkRec
deriving DecidableEq, Repr

/-- The ids of a theory list, in order. -/
def ids (ths : List Theory) : List String := ths.map Theory.id

/-- A board is well formed when its theory ids are pairwise distinct
(arena storage is an id→struct map, §9). -/
def WellFormedBoard (b : Board) : Prop := (ids b.theories).Nodup

/-- Update the theory with the given id (id→struct map write). -/
def updateTheory (ths : List Theory) (tid : String) (f : Theory → Theory) :
    List Theory :=
  ths.map fun t => if t.id = tid then f t else t

/-- Look a theory up by id. -/
def Board.getTheory (b : Board) (tid : String) : Option Theory :=
  b.theories.find? fun t => t.id = tid

/-- The status of the theory with the given id, if present. -/
def Board.getStatus (b : Board) (tid : String) : Option TStatus :=
  (b.getTheory tid).map Theory.status

/-- Whether some theory with the given id exists. -/
def hasTheory (ths : List Theory) (tid : String) : Bool :=
  ths.any fun t => t.id = tid

/-- Record one piece of linked evidence on a theory: supports raises
evidence_count, contradicts raises contradiction_count. -/
def bump (rel : Relation) (t : Theory) : Theory :=
  match rel with
  | Relation.supports => { t with evidence_count := t.evidence_count + 1 }
  | Relation.contradicts =>
      { t with contradiction_count := t.contradiction_count + 1 }

/-- Modelled from the spec: `Board.add_evidence_to_theory` (changelog /
developer guide) — update the named theory's tally for one link and record
the edge; an unknown theory id signals NotFoundError and the link is
skipped. -/
def add_evidence_to_theory (b : Board) (eid tid : String) (rel : Relation) :
    Board × List String :=
  if hasTheory b.theories tid then
    ({ b with
        theories := updateTheory b.theories tid (bump rel)
        links := b.links ++ [⟨eid, tid, rel⟩] }, [])
  else (b, ["NotFoundError: unknown theory " ++ tid])

/-- Apply each `links_to_theories` entry in order, collecting errors. -/
def applyLinks (b : Board) (eid : String) :
    List (String × Relation) → Board × List String
  | [] => (b, [])
  | (tid, rel) :: rest =>
    let r1 := add_evidence_to_theory b eid tid rel
    let r2 := applyLinks r1.1 eid rest
    (r2.1, r1.2 ++ r2.2)

/-- Modelled from the spec: `addEvidence(evidence)` of §4.3 — the evidence
is always stored (authoring is decoupled from theory existence), then each
links_to_theories entry updates the named theory or contributes a
NotFoundError. -/
def addEvidence (b : Board) (e : Evidence) : Board × List String :=
  applyLinks { b with evidence := b.evidence ++ [e] } e.id e.links_to_theories

/-- Force a theory to status locked. -/
def lockTheory (b : Board) (tid : String) : Board :=
  { b with theories :=
      updateTheory b.theories tid fun t => { t with status := TStatus.locked } }

/-- Lock every currently active theory whose id is in the given conflict
list (the deactivation step of internalizeTheory). -/
def lockConflicting (ths : List Theory) (conf : List String) : List Theory :=
  ths.map fun t =>
    if t.id ∈ conf ∧ t.status = TStatus.active
    then { t with status := TStatus.locked } else t

/-- Skill values, read as total functions with default 0. -/
def Skills := String → Int

/-- Apply additive skill deltas. -/
def applyEffects (s : Skills) (eff : List (String × Int)) : Skills :=
  eff.foldl (fun s p => fun n => if n = p.1 then s n + p.2 else s n) s

/-- Remove additive skill deltas (deactivation reverses exactly what
activation applied). -/
def revertEffects (s : Skills) (eff : List (String × Int)) : Skills :=
  eff.foldl (fun s p => fun n => if n = p.1 then s n - p.2 else s n) s

/-- Modelled from the spec: `internalizeTheory(theory, playerState)` of
§4.3 — legal only from status available; reverts the additive deltas of
every conflicting active theory and forces it to locked, activates the
theory, and applies its effects to the player's skills. -/
def internalizeTheoryP (b : Board) (skills : Skills) (tid : String) :
    Board × Skills :=
  match b.getTheory tid with
  | some t =>
    if t.status = TStatus.available then
      let toRevert := b.theories.filter fun u =>
        u.id ∈ t.conflicts_with ∧ u.status = TStatus.active
      let skills' := applyEffects
        (toRevert.foldl (fun s u => revertEffects s u.effects) skills)
        t.effects
      let ths' := updateTheory (lockConflicting b.theories t.conflicts_with)
        tid (fun u => { u with status := TStatus.active })
      ({ b with theories := ths' }, skills')
    else (b, skills)
  | none => (b, skills)

/-- The board component of internalizeTheory (the skill deltas do not feed
back into the graph). -/
def internalizeTheory (b : Board) (tid : String) : Board :=
  (internalizeTheoryP b (fun _ => 0) tid).1

/-- Modelled from the spec: `setTheoryStatus`, the core operation behind
the `toggletheory` debug command (§6).  Setting a theory active enforces
the §3 conflict invariant by locking conflicting active theories — §7
classes two conflicting active theories as a ConsistencyViolation, a core
bug that must never occur. -/
def setTheoryStatus (b : Board) (tid : String) (s : TStatus) : Board :=
  match b.getTheory tid with
  | some t =>
    if s = TStatus.active then
      let ths' := updateTheory (lockConflicting b.theories t.conflicts_with)
        tid (fun u => { u with status := TStatus.active })
      { b with theories := ths' }
    else
      { b with theories :=
          updateTheory b.theories tid fun u => { u with status := s } }
  | none => b

/-- The public Board mutators of §3. -/
inductive BoardOp where
  | addEv (e : Evidence)
  | addEvToTheory (eid tid : String) (rel : Relation)
  | internalize (tid : String)
  | lock (tid : String)
  | setStatus (tid : String) (s : TStatus)

/-- Run one public operation (error reports are dropped: they do not
change the resulting board). -/
def applyOp (b : Board) : BoardOp → Board
  | BoardOp.addEv e => (addEvidence b e).1
  | BoardOp.addEvToTheory eid tid rel => (add_evidence_to_theory b eid tid rel).1
  | BoardOp.internalize tid => internalizeTheory b tid
  | BoardOp.lock tid => lockTheory b tid
  | BoardOp.setStatus tid s => setTheoryStatus b tid s

/-- Run a sequence of public operations. -/
def applyOps (b : Board) (ops : List BoardOp) : Board := ops.foldl applyOp b

/-- The §3 invariant on a theory list: no two distinct, mutually
conflicting theories are simultaneously active. -/
def ConflictFreeL (ths : List Theory) : Prop :=
  ∀ t1 ∈ ths, ∀ t2 ∈ ths, t1.id ≠ t2.id →
    t1.id ∈ t2.conflicts_with → t2.id ∈ t1.conflicts_with →
    ¬(t1.status = TStatus.active ∧ t2.status = TStatus.active)

/-- The §3 invariant on a board. -/
def ConflictFree (b : Board) : Prop := ConflictFreeL b.theories

/-! ## PlayerState and the Text Composer, modelled from the spec -/

/-- The fixed archetype set (§3, §9: a closed tagged variant). -/
inductive Archetype where
  | believer
  | skeptic
  | haunted
  | neutral
deriving DecidableEq, Repr

/-- Modelled from the spec: the PlayerState record of §3 (maps and sets
are kept as ordered association/element lists, the arena-style storage of
§9). -/
structure PlayerState where
  skills : List (String × Int)
  sanity : Int
  reality : Int
  archetype : Archetype
  flags : List String
  inventory : List String
  trust_map : List (String × Int)
deriving DecidableEq, Repr

/-- Association-list read with default 0 (absent skill/trust = 0). -/
def lookupInt (m : List (String × Int)) (k : String) : Int :=
  match m.find? (fun p => p.1 = k) with
  | some p => p.2
  | none => 0

/-- Insert positions of §3. -/
inductive InsertPos where
  | AFTER_BASE
  | AFTER_LENS
  | BEFORE_CHOICES
  | MID_PARAGRAPH
  | AFTER_PARAGRAPH (n : Nat)
deriving DecidableEq, Repr

/-- The condition kinds of §4.2 step 3. -/
inductive Cond where
  | skill_gte (skill : String) (value : Int)
  | flag_set (name : String)
  | theory_active (id : String)
  | trust_gte (npc : String) (value : Int)
  | thermal_mode (b : Bool)
  | sanity_lt (value : Int)
deriving DecidableEq, Repr

/-- A conditional scene insert (the Insert record) (§3). -/
structure SceneInsert where
  id : String
  condition : Cond
  text : String
  insert_at : InsertPos
deriving DecidableEq, Repr

/-- A scene's text block: base, per-archetype lens overlay, inserts. -/
structure SceneText where
  base : String
  lensFor : Archetype → Option String
  inserts : List SceneInsert

/-- Evaluate an insert condition against the player state and the set of
currently active theory ids (thermal optics state is carried as the
`thermal_mode` flag). -/
def evalCond (ps : PlayerState) (activeTheories : List String) :
    Cond → Bool
  | Cond.skill_gte s v => v ≤ lookupInt ps.skills s
  | Cond.flag_set n => ps.flags.contains n
  | Cond.theory_active i => activeTheories.contains i
  | Cond.trust_gte n v => v ≤ lookupInt ps.trust_map n
  | Cond.thermal_mode b => ps.flags.contains "thermal_mode" == b
  | Cond.sanity_lt v => ps.sanity < v

/-- Blank-line-delimited paragraphs (§4.2 step 3). -/
def paragraphs (s : String) : List String := s.splitOn "\n\n"

/-- Rejoin paragraphs with blank lines. -/
def joinParagraphs (l : List String) : String := String.intercalate "\n\n" l

/-- Splice a text after the n-th paragraph (0-indexed); out-of-range n is
a no-op, to keep content authoring forgiving. -/
def spliceAfterParagraph (s : String) (n : Nat) (ins : String) : String :=
  let ps := paragraphs s
  if n < ps.length then joinParagraphs (ps.take (n + 1) ++ [ins] ++ ps.drop (n + 1))
  else s

/-- Append a list of insert texts as fresh paragraphs. -/
def appendInserts (s : String) (l : List SceneInsert) : String :=
  l.foldl (fun acc i => acc ++ "\n\n" ++ i.text) s

/-- Modelled from the spec: §4.2 steps 1–3 — base text, additive lens
overlay for the player's archetype, then the satisfied inserts spliced at
their positions (AFTER_BASE before the lens, AFTER_LENS after it,
AFTER_PARAGRAPH:n into the paragraph list, BEFORE_CHOICES at the very
end; MID_PARAGRAPH requires authored markers, underspecified per §9, and
is modelled as a no-op). -/
def assemble (scene : SceneText) (ps : PlayerState)
    (activeTheories : List String) : String :=
  let act := scene.inserts.filter fun i => evalCond ps activeTheories i.condition
  let s1 := appendInserts scene.base
    (act.filter fun i => i.insert_at = InsertPos.AFTER_BASE)
  let s2 := match scene.lensFor ps.archetype with
    | some lensText => s1 ++ "\n\n" ++ lensText
    | none => s1
  let s3 := appendInserts s2
    (act.filter fun i => i.insert_at = InsertPos.AFTER_LENS)
  let s4 := act.foldl (fun acc i =>
    match i.insert_at with
    | InsertPos.AFTER_PARAGRAPH n => spliceAfterParagraph acc n i.text
    | _ => acc) s3
  appendInserts s4
    (act.filter fun i => i.insert_at = InsertPos.BEFORE_CHOICES)

/-- The Hysteria-tier word replacement table of §4.2 / the writers'
guide: door→mouth, window→eye, shadow→void. -/
def hysteriaTable : List (String × String) :=
  [("door", "mouth"), ("window", "eye"), ("shadow", "void")]

/-- Carry the original word's leading capitalisation over to the
replacement (case-preserving substitution). -/
def matchCase (orig repl : List Char) : List Char :=
  match orig, repl with
  | o :: _, r :: rs => if o.isUpper then r.toUpper :: rs else r :: rs
  | _, r => r

/-- Replace one whole word if its lowercase form is in the table. -/
def replaceWord (w : List Char) : List Char :=
  match hysteriaTable.find? (fun p => p.1.toList = w.map Char.toLower) with
  | some p => matchCase w p.2.toList
  | none => w

/-- Split a character stream into maximal runs of letters and
non-letters, so that replacement sees whole words only. -/
def tokAux (cur : List Char) : List Char → List (List Char)
  | [] => if cur.isEmpty then [] else [cur.reverse]
  | c :: cs =>
    match cur with
    | [] => tokAux [c] cs
    | d :: _ =>
      if d.isAlpha = c.isAlpha then tokAux (c :: cur) cs
      else cur.reverse :: tokAux [c] cs

/-- Tokenize a string into word and separator runs. -/
def tokenize (s : List Char) : List (List Char) := tokAux [] s

/-- Whether a token is a word (letter) run. -/
def isWordTok : List Char → Bool
  | c :: _ => c.isAlpha
  | [] => false

/-- Modelled from the spec: the Hysteria substitution — the fixed table
applied to the composed text, whole-word matches only, case-preserving. -/
def hysteria (text : String) : String :=
  String.mk (((tokenize text.toList).map fun w =>
    if isWordTok w then replaceWord w else w).flatten)

/-- Modelled from the spec: §4.2 step 4, the sanity-tier distortion pass
applied strictly after assembly.  Sanity ≥ 50 leaves the engine output
unchanged (Unsettled-tier distortion is authored, not generated); 25–49 is
the Hysteria lexical substitution; below 25 the Psychosis policy applies
(one of corruption/reversal/redaction, scene- or default-chosen; the
deterministic default modelled here is full reversal). -/
def distort (sanity : Int) (text : String) : String :=
  if 50 ≤ sanity then text
  else if 25 ≤ sanity then hysteria text
  else String.mk text.toList.reverse

/-- Modelled from the spec: `compose(scene, playerState)` of §4.2 —
assembly (steps 1–3) then the sanity distortion pass (step 4) on the
fully composed text. -/
def compose (scene : SceneText) (ps : PlayerState)
    (activeTheories : List String) : String :=
  distort ps.sanity (assemble scene ps activeTheories)

/-! ## Serialization (toDict / fromDict), modelled from the spec -/

/-- A dictionary value: the versioned structure that `toDict` produces
and `fromDict` consumes (§6 persistence). -/
inductive DVal where
  | int (n : Int)
  | str (s : String)
  | arr (l : List DVal)
deriving Repr

/-- Encode a list elementwise. -/
def encList (enc : α → DVal) (l : List α) : DVal := DVal.arr (l.map enc)

/-- Decode a list elementwise; any failing element fails the list. -/
def decList (dec : DVal → Option α) : DVal → Option (List α)
  | DVal.arr vs => vs.mapM dec
  | _ => none

/-- Decode an integer. -/
def decInt : DVal → Option Int
  | DVal.int n => some n
  | _ => none

/-- Decode a string. -/
def decStr : DVal → Option String
  | DVal.str s => some s
  | _ => none

/-- Decode a natural number (a non-negative integer). -/
def decNat : DVal → Option Nat
  | DVal.int n => if 0 ≤ n then some n.toNat else none
  | _ => none

/-- Encode a (name, integer) pair. -/
def encPair (p : String × Int) : DVal := DVal.arr [DVal.str p.1, DVal.int p.2]

/-- Decode a (name, integer) pair. -/
def decPair : DVal → Option (String × Int)
  | DVal.arr [DVal.str s, DVal.int n] => some (s, n)
  | _ => none

/-- Encode a theory status. -/
def encStatus : TStatus → DVal
  | TStatus.locked => DVal.str "locked"
  | TStatus.available => DVal.str "available"
  | TStatus.active => DVal.str "active"
  | TStatus.internalized => DVal.str "internalized"

/-- Decode a theory status. -/
def decStatus : DVal → Option TStatus
  | DVal.str "locked" => some TStatus.locked
  | DVal.str "available" => some TStatus.available
  | DVal.str "active" => some TStatus.active
  | DVal.str "internalized" => some TStatus.internalized
  | _ => none

/-- Encode a link relation. -/
def encRelation : Relation → DVal
  | Relation.supports => DVal.str "supports"
  | Relation.contradicts => DVal.str "contradicts"

/-- Decode a link relation. -/
def decRelation : DVal → Option Relation
  | DVal.str "supports" => some Relation.supports
  | DVal.str "contradicts" => some Relation.contradicts
  | _ => none

/-- Encode an archetype. -/
def encArchetype : Archetype → DVal
  | Archetype.believer => DVal.str "believer"
  | Archetype.skeptic => DVal.str "skeptic"
  | Archetype.haunted => DVal.str "haunted"
  | Archetype.neutral => DVal.str "neutral"

/-- Decode an archetype. -/
def decArchetype : DVal → Option Archetype
  | DVal.str "believer" => some Archetype.believer
  | DVal.str "skeptic" => some Archetype.skeptic
  | DVal.str "haunted" => some Archetype.haunted
  | DVal.str "neutral" => some Archetype.neutral
  | _ => none

/-- Encode a theory link entry of links_to_theories. -/
def encTLink (p : String × Relation) : DVal :=
  DVal.arr [DVal.str p.1, encRelation p.2]

/-- Decode a theory link entry. -/
def decTLink : DVal → Option (String × Relation)
  | DVal.arr [DVal.str s, r] => (decRelation r).map fun rel => (s, rel)
  | _ => none

/-- Encode a theory. -/
def encTheory (t : Theory) : DVal :=
  DVal.arr [DVal.str t.id, encList DVal.str t.conflicts_with,
    encStatus t.status, DVal.int t.evidence_count,
    DVal.int t.contradiction_count, encList encPair t.effects,
    DVal.int t.degradation_rate]

/-- Decode a theory. -/
def decTheory : DVal → Option Theory
  | DVal.arr [DVal.str tid, cw, st, ec, cc, eff, dr] =>
    match decList decStr cw, decStatus st, decNat ec, decNat cc,
        decList decPair eff, decNat dr with
    | some cw', some st', some ec', some cc', some eff', some dr' =>
      some ⟨tid, cw', st', ec', cc', eff', dr'⟩
    | _, _, _, _, _, _ => none
  | _ => none

/-- Encode an evidence record. -/
def encEvidence (e : Evidence) : DVal :=
  DVal.arr [DVal.str e.id, DVal.str e.name, DVal.str e.etype,
    DVal.str e.case_id, encList DVal.str e.related_skills,
    encList DVal.str e.tags, encList encTLink e.links_to_theories]

/-- Decode an evidence record. -/
def decEvidence : DVal → Option Evidence
  | DVal.arr [DVal.str eid, DVal.str nm, DVal.str ty, DVal.str ci,
      rs, tg, lt] =>
    match decList decStr rs, decList decStr tg, decList decTLink lt with
    | some rs', some tg', some lt' => some ⟨eid, nm, ty, ci, rs', tg', lt'⟩
    | _, _, _ => none
  | _ => none

/-- Encode a link-graph edge. -/
def encLink (l : LinkRec) : DVal :=
  DVal.arr [DVal.str l.source, DVal.str l.target, encRelation l.relation]

/-- Decode a link-graph edge. -/
def decLink : DVal → Option LinkRec
  | DVal.arr [DVal.str s, DVal.str t, r] =>
    (decRelation r).map fun rel => ⟨s, t, rel⟩
  | _ => none

/-- Modelled from the spec: `toDict` for PlayerState (§6) — a versioned
structure with every field of §3. -/
def PlayerState.toDict (ps : PlayerState) : DVal :=
  DVal.arr [DVal.int 1, encList encPair ps.skills, DVal.int ps.sanity,
    DVal.int ps.reality, encArchetype ps.archetype,
    encList DVal.str ps.flags, encList DVal.str ps.inventory,
    encList encPair ps.trust_map]

/-- Modelled from the spec: `fromDict` for PlayerState — exact
reconstruction from the versioned structure. -/
def PlayerState.fromDict : DVal → Option PlayerState
  | DVal.arr [DVal.int ver, sk, DVal.int sa, DVal.int re, ar, fl, inv, tr] =>
    if ver = 1 then
      match decList decPair sk, decArchetype ar, decList decStr fl,
          decList decStr inv, decList decPair tr with
      | some sk', some ar', some fl', some inv', some tr' =>
        some ⟨sk', sa, re, ar', fl', inv', tr'⟩
      | _, _, _, _, _ => none
    else none
  | _ => none

/-- Modelled from the spec: `toDict` for the Board (§6), nesting the full
theory and evidence graphs and the link records. -/
def Board.toDict (b : Board) : DVal :=
  DVal.arr [DVal.int 1, encList encTheory b.theories,
    encList encEvidence b.evidence, encList encLink b.links]

/-- Modelled from the spec: `fromDict` for the Board. -/
def Board.fromDict : DVal → Option Board
  | DVal.arr [DVal.int ver, th, ev, lk] =>
    if ver = 1 then
      match decList decTheory th, decList decEvidence ev,
          decList decLink lk with
      | some th', some ev', some lk' => some ⟨th', ev', lk'⟩
      | _, _, _ => none
    else none
  | _ => none

/-! ## Concrete fixtures -/

/-- Total delta an effects list contributes to one skill name. -/
def sumDeltas (eff : List (String × Int)) (n : String) : Int :=
  (eff.map fun p => if n = p.1 then p.2 else 0).sum

/-- Fixture theory T1 (conflicts with T2, effects Logic +1). -/
def thA : Theory :=
  ⟨"T1", ["T2"], TStatus.available, 0, 0, [("Logic", 1)], 0⟩

/-- Fixture theory T2 (conflicts with T1, active, effects Wits +2). -/
def thB : Theory :=
  ⟨"T2", ["T1"], TStatus.active, 0, 0, [("Wits", 2)], 0⟩

/-- All-zero skill baseline. -/
def baseZero : Skills := fun _ => 0

/-- Fixture board holding T1 and T2. -/
def bW : Board := ⟨[thA, thB], [], []⟩

/-- Fixture evidence linked (supports) to the known theory T2. -/
def evKnown : Evidence :=
  ⟨"E1", "Bloody Glass Shard", "physical", "case1", [], [],
    [("T2", Relation.supports)]⟩

/-- Fixture evidence linked to an unknown theory id. -/
def evUnknown : Evidence :=
  ⟨"E2", "Strange Photo", "physical", "case1", [], [],
    [("ghost_theory", Relation.supports)]⟩

/-- Number of links_to_theories entries naming a given theory id with a
given relation — the total increment §4.3's per-entry updates owe that
theory's counter. -/
def linkCount (links : List (String × Relation)) (tid : String)
    (rel : Relation) : Nat :=
  (links.filter fun p => p.1 = tid ∧ p.2 = rel).length

/-- Fixture evidence with several links: two known entries on T2 (one
supports, one contradicts), one known on T1, and one unknown. -/
def evMulti : Evidence :=
  ⟨"E3", "Case File", "document", "case1", [], [],
    [("T2", Relation.supports), ("ghost_theory", Relation.supports),
     ("T2", Relation.contradicts), ("T1", Relation.supports)]⟩

/-- Fixture player at sanity 30 (Hysteria tier). -/
def psH : PlayerState := ⟨[], 30, 100, Archetype.neutral, [], [], []⟩

/-- Fixture scene whose base text is the door line. -/
def sceneDoor : SceneText := ⟨"The door is locked", fun _ => none, []⟩

/-! ## Claim theorems -/

/-- C1: for any integer dc and modifiers and any roll total in [2,12]
that is not a natural 2 or 12, resolve returns the tier determined solely
by margin = roll + modifiers - dc (SUCCESS at margin ≥ 0,
PARTIAL_SUCCESS at margin -1 or -2, FAILURE at margin ≤ -3); and
dc=8, modifiers=+2, roll=6 yields SUCCESS. -/
theorem resolve_margin_tiers (dc modifiers roll : Int)
    (_hlo : 2 ≤ roll) (_hhi : roll ≤ 12) (hn2 : roll ≠ 2) (hn12 : roll ≠ 12) :
    resolve dc modifiers roll = marginTier (roll + modifiers - dc)
    ∧ resolve 8 2 6 = Outcome.SUCCESS := by
  constructor
  · simp [resolve, marginTier, hn2, hn12]
  · decide

/-- Witness for C1 at dc=8, modifiers=+2, roll=6. -/
theorem resolve_margin_tiers_witness :
    (2 ≤ (6 : Int) ∧ (6 : Int) ≤ 12 ∧ (6 : Int) ≠ 2 ∧ (6 : Int) ≠ 12)
    ∧ resolve 8 2 6 = marginTier (6 + 2 - 8)
    ∧ resolve 8 2 6 = Outcome.SUCCESS :=
  ⟨by decide,
   (resolve_margin_tiers 8 2 6 (by decide) (by decide) (by decide)
     (by decide)).1,
   (resolve_margin_tiers 8 2 6 (by decide) (by decide) (by decide)
     (by decide)).2⟩

/-- C2: a natural pre-modifier 12 always resolves to CRITICAL_SUCCESS and
a natural 2 to CRITICAL_FAILURE, for every dc and modifier sum; in
particular dc=10, modifiers=0, roll=2 is CRITICAL_FAILURE. -/
theorem resolve_natural_criticals (dc modifiers : Int) :
    resolve dc modifiers 12 = Outcome.CRITICAL_SUCCESS
    ∧ resolve dc modifiers 2 = Outcome.CRITICAL_FAILURE
    ∧ resolve 10 0 2 = Outcome.CRITICAL_FAILURE :=
  ⟨by simp [resolve], by simp [resolve], by decide⟩

/-- C5: health lies in [0,100]; with the other inputs fixed it is
monotonically non-decreasing in evidence_count and monotonically
non-increasing in contradiction_count. -/
theorem health_bounds_and_monotone (e e' c c' d el : Nat)
    (he : e ≤ e') (hc : c ≤ c') :
    (0 ≤ health e c d el ∧ health e c d el ≤ 100)
    ∧ health e c d el ≤ health e' c d el
    ∧ health e c' d el ≤ health e c d el := by
  unfold health
  refine ⟨⟨le_max_left 0 _, max_le (by norm_num) (min_le_left _ _)⟩, ?_, ?_⟩
  · exact max_le_max le_rfl (min_le_min le_rfl (by
      have : (e : Int) ≤ (e' : Int) := by exact_mod_cast he
      linarith))
  · exact max_le_max le_rfl (min_le_min le_rfl (by
      have : (c : Int) ≤ (c' : Int) := by exact_mod_cast hc
      linarith))

/-- Witness for C5 at e=1→2, c=1→3, d=2, elapsed=1. -/
theorem health_bounds_and_monotone_witness :
    ((1 : Nat) ≤ 2 ∧ (1 : Nat) ≤ 3)
    ∧ (0 ≤ health 1 1 2 1 ∧ health 1 1 2 1 ≤ 100)
    ∧ health 1 1 2 1 ≤ health 2 1 2 1
    ∧ health 1 3 2 1 ≤ health 1 1 2 1 :=
  ⟨by decide,
   (health_bounds_and_monotone 1 2 1 3 2 1 (by decide) (by decide)).1,
   (health_bounds_and_monotone 1 2 1 3 2 1 (by decide) (by decide)).2.1,
   (health_bounds_and_monotone 1 2 1 3 2 1 (by decide) (by decide)).2.2⟩

/-- C9: at sanity ≥ 60 SubliminalText's visible span is exactly the given
text (the corruption branch is unreachable because isUnstable needs
100 - sanity > 40), and the screen-reader-only span always carries the
original text at every sanity. -/
theorem subliminal_visible_stable (text : String) (sanity : Int)
    (c : Option String) (hs : 60 ≤ sanity)
    (hr : CorruptionReachable sanity c) :
    (renderSubliminal text c).visible = text
    ∧ ∀ (t' : String) (c' : Option String),
        (renderSubliminal t' c').srOnly = t' := by
  have hu : isUnstable sanity = false := by
    unfold isUnstable panicLevel
    simp only [decide_eq_false_iff_not, not_lt]
    omega
  rcases hr with h | ⟨h1, _⟩
  · subst h; exact ⟨rfl, fun _ _ => rfl⟩
  · rw [hu] at h1; cases h1

/-- Witness for C9 at text "X", sanity 100, corruption never set. -/
theorem subliminal_visible_stable_witness :
    ((60 : Int) ≤ 100 ∧ CorruptionReachable 100 none)
    ∧ (renderSubliminal "X" none).visible = "X"
    ∧ ∀ (t' : String) (c' : Option String),
        (renderSubliminal t' c').srOnly = t' :=
  ⟨⟨by decide, Or.inl rfl⟩,
   (subliminal_visible_stable "X" 100 none (by decide) (Or.inl rfl)).1,
   (subliminal_visible_stable "X" 100 none (by decide) (Or.inl rfl)).2⟩

/-- C10: stableRandom(seed) is k/10000 with k ∈ [0,9999], hence in [0,1);
equal seeds give equal values, and MindMap's processed node positions are
identical across any two renders of the same boardData. -/
theorem stableRandom_form_and_stability :
    (∀ seed, ∃ k : Nat, k ≤ 9999 ∧ stableRandom seed = (k : ℚ) / 10000)
    ∧ (∀ seed, 0 ≤ stableRandom seed ∧ stableRandom seed < 1)
    ∧ (∀ s t : String, s = t → stableRandom s = stableRandom t)
    ∧ ∀ (cosq sinq : ℚ → ℚ) (tau : ℚ) (b b' : List BNode), b = b' →
        processedNodes cosq sinq tau b = processedNodes cosq sinq tau b' := by
  have hk : ∀ seed, stableRandomK seed < 10000 := fun seed =>
    Nat.mod_lt _ (by norm_num)
  refine ⟨fun seed => ⟨stableRandomK seed, by have := hk seed; omega, rfl⟩,
    fun seed => ⟨?_, ?_⟩, fun s t h => by rw [h], fun _ _ _ _ _ h => by rw [h]⟩
  · exact div_nonneg (by positivity) (by norm_num)
  · rw [stableRandom, div_lt_one (by norm_num)]
    exact_mod_cast hk seed

/-- Witness for C10: the determinism conjunct applied at a concrete
seed. -/
theorem stableRandom_form_and_stability_witness :
    ("node1_x" : String) = "node1_x"
    ∧ stableRandom "node1_x" = stableRandom "node1_x"
    ∧ (∃ k : Nat, k ≤ 9999 ∧ stableRandom "node1_x" = (k : ℚ) / 10000) :=
  ⟨rfl, stableRandom_form_and_stability.2.2.1 "node1_x" "node1_x" rfl,
   stableRandom_form_and_stability.1 "node1_x"⟩

/-- C8: for every player at sanity in [25,49], compose is exactly the
fixed deterministic word-replacement pass applied to the fully assembled
text (whole-word, case-preserving, per the hysteria table); at sanity 30
the composed text "The door is locked" becomes "The mouth is locked". -/
theorem compose_hysteria_substitution (scene : SceneText)
    (ps : PlayerState) (act : List String)
    (h1 : 25 ≤ ps.sanity) (h2 : ps.sanity ≤ 49) :
    compose scene ps act = hysteria (assemble scene ps act)
    ∧ compose sceneDoor psH [] = "The mouth is locked"
    ∧ distort 30 "The door is locked" = "The mouth is locked" := by
  refine ⟨?_, by rfl, by rfl⟩
  unfold compose distort
  rw [if_neg (by omega), if_pos (by omega)]

/-- Witness for C8 at the fixture scene and the sanity-30 player. -/
theorem compose_hysteria_substitution_witness :
    (25 ≤ psH.sanity ∧ psH.sanity ≤ 49)
    ∧ compose sceneDoor psH [] = hysteria (assemble sceneDoor psH [])
    ∧ compose sceneDoor psH [] = "The mouth is locked" :=
  ⟨by decide,
   (compose_hysteria_substitution sceneDoor psH [] (by decide) (by decide)).1,
   (compose_hysteria_substitution sceneDoor psH [] (by decide)
     (by decide)).2.1⟩

/-! ### Helper lemmas: additive skill deltas -/

/-- Applying an effects list adds exactly its summed deltas, per skill. -/
lemma applyEffects_apply (eff : List (String × Int)) (s : Skills)
    (n : String) : applyEffects s eff n = s n + sumDeltas eff n := by
  induction eff generalizing s with
  | nil => simp [applyEffects, sumDeltas]
  | cons p rest ih =>
    simp only [applyEffects, List.foldl_cons] at *
    rw [ih]
    unfold sumDeltas
    simp only [List.map_cons, List.sum_cons]
    by_cases h : n = p.1
    · simp [h]; ring
    · simp [h]

/-- Reverting an effects list subtracts exactly its summed deltas. -/
lemma revertEffects_apply (eff : List (String × Int)) (s : Skills)
    (n : String) : revertEffects s eff n = s n - sumDeltas eff n := by
  induction eff generalizing s with
  | nil => simp [revertEffects, sumDeltas]
  | cons p rest ih =>
    simp only [revertEffects, List.foldl_cons] at *
    rw [ih]
    unfold sumDeltas
    simp only [List.map_cons, List.sum_cons]
    by_cases h : n = p.1
    · simp [h]; ring
    · simp [h]

/-- C4: internalizing theory A while its conflicting theory B is active
leaves every skill at the pre-B baseline plus exactly A's additive
deltas — B's deltas are reversed once, with no residue. -/
theorem internalize_exact_revert (baseline : Skills) (A B : Theory)
    (ev : List Evidence) (lk : List LinkRec)
    (hA : A.status = TStatus.available)
    (hB : B.status = TStatus.active) (hconf : B.id ∈ A.conflicts_with) :
    ∀ n, (internalizeTheoryP ⟨[A, B], ev, lk⟩
        (applyEffects baseline B.effects) A.id).2 n
      = applyEffects baseline A.effects n := by
  intro n
  unfold internalizeTheoryP Board.getTheory
  rw [List.find?_cons_of_pos _ (by simp)]
  simp only [hA, if_pos rfl, List.filter_cons, List.filter_nil]
  simp only [hA, hB, hconf, decide_eq_true_eq]
  simp only [decide_True, decide_False, and_true, and_false, if_false,
    if_true]
  rw [if_neg (by simp)]
  simp only [List.foldl_cons, List.foldl_nil]
  rw [applyEffects_apply, revertEffects_apply, applyEffects_apply,
    applyEffects_apply]
  ring

/-- Witness for C4 at T1 (Logic +1) internalized over active T2
(Wits +2): Wits returns to the zero baseline and Logic gains exactly 1. -/
theorem internalize_exact_revert_witness :
    (thA.status = TStatus.available ∧ thB.status = TStatus.active
      ∧ thB.id ∈ thA.conflicts_with)
    ∧ (∀ n, (internalizeTheoryP ⟨[thA, thB], [], []⟩
        (applyEffects baseZero thB.effects) thA.id).2 n
      = applyEffects baseZero thA.effects n)
    ∧ (internalizeTheoryP ⟨[thA, thB], [], []⟩
        (applyEffects baseZero thB.effects) thA.id).2 "Wits"
      = baseZero "Wits"
    ∧ (internalizeTheoryP ⟨[thA, thB], [], []⟩
        (applyEffects baseZero thB.effects) thA.id).2 "Logic"
      = baseZero "Logic" + 1 := by
  have h := internalize_exact_revert baseZero thA thB [] [] rfl rfl
    (by decide)
  refine ⟨⟨rfl, rfl, by decide⟩, h, ?_, ?_⟩
  · rw [h "Wits"]; rfl
  · rw [h "Logic"]; rfl

/-! ### Helper lemmas: board structure -/

/-- bump never changes a theory's id. -/
lemma bump_id (rel : Relation) (t : Theory) : (bump rel t).id = t.id := by
  cases rel <;> rfl

/-- bump never changes a theory's conflict list. -/
lemma bump_cw (rel : Relation) (t : Theory) :
    (bump rel t).conflicts_with = t.conflicts_with := by
  cases rel <;> rfl

/-- bump never changes a theory's status. -/
lemma bump_status (rel : Relation) (t : Theory) :
    (bump rel t).status = t.status := by
  cases rel <;> rfl

/-- Mapping an id-preserving function over a theory list keeps the id
list. -/
lemma ids_map (ths : List Theory) (g : Theory → Theory)
    (h : ∀ t, (g t).id = t.id) : ids (ths.map g) = ids ths := by
  unfold ids
  rw [List.map_map]
  exact congrArg (fun f => List.map f ths) (funext h)

/-- With pairwise-distinct ids, two members sharing an id are the same
theory. -/
lemma theory_inj {ths : List Theory} (hnd : (ids ths).Nodup)
    {a b : Theory} (ha : a ∈ ths) (hb : b ∈ ths) (hid : a.id = b.id) :
    a = b := by
  unfold ids at hnd
  exact List.inj_on_of_nodup_map hnd ha hb hid

/-- With pairwise-distinct ids, the id lookup of a member finds exactly
that member. -/
lemma find?_id_of_mem {ths : List Theory} {A : Theory}
    (hnd : (ids ths).Nodup) (hA : A ∈ ths) :
    ths.find? (fun t => t.id = A.id) = some A := by
  induction ths with
  | nil => cases hA
  | cons h rest ih =>
    rw [ids, List.map_cons, List.nodup_cons] at hnd
    rcases List.mem_cons.mp hA with rfl | hA'
    · rw [List.find?_cons_of_pos _ (by simp)]
    · have hne : h.id ≠ A.id := by
        intro he
        exact hnd.1 (he ▸ List.mem_map_of_mem Theory.id hA')
      rw [List.find?_cons_of_neg _ (by simp [hne])]
      exact ih hnd.2 hA'

/-- Looking a member's id up after an id-preserving map finds that
member's image. -/
lemma find?_map_of_mem {ths : List Theory} {g : Theory → Theory}
    (hg : ∀ t, (g t).id = t.id) (hnd : (ids ths).Nodup)
    {B : Theory} (hB : B ∈ ths) :
    (ths.map g).find? (fun t => t.id = B.id) = some (g B) := by
  induction ths with
  | nil => cases hB
  | cons h rest ih =>
    rw [ids, List.map_cons, List.nodup_cons] at hnd
    rw [List.map_cons]
    rcases List.mem_cons.mp hB with rfl | hB'
    · rw [List.find?_cons_of_pos _ (by simp [hg])]
    · have hne : h.id ≠ B.id := by
        intro he
        exact hnd.1 (he ▸ List.mem_map_of_mem Theory.id hB')
      rw [List.find?_cons_of_neg _ (by simp [hg, hne])]
      exact ih hnd.2 hB'

/-- A map that keeps ids and conflict lists and never introduces a fresh
active status preserves the conflict invariant. -/
lemma conflictFreeL_map {ths : List Theory} {g : Theory → Theory}
    (hid : ∀ t, (g t).id = t.id)
    (hcw : ∀ t, (g t).conflicts_with = t.conflicts_with)
    (hact : ∀ t, (g t).status = TStatus.active → t.status = TStatus.active)
    (h : ConflictFreeL ths) : ConflictFreeL (ths.map g) := by
  intro t1' h1' t2' h2' hne hc12 hc21 hpair
  obtain ⟨t1, ht1, rfl⟩ := List.mem_map.mp h1'
  obtain ⟨t2, ht2, rfl⟩ := List.mem_map.mp h2'
  exact h t1 ht1 t2 ht2 (by rw [hid, hid] at hne; exact hne)
    (by rw [hid, hcw] at hc12; exact hc12)
    (by rw [hid, hcw] at hc21; exact hc21)
    ⟨hact _ hpair.1, hact _ hpair.2⟩

/-- The conflict invariant survives activating a member theory while
locking its conflicting active theories (the internalize/setStatus
update). -/
lemma conflictFreeL_activate {ths : List Theory} {A : Theory}
    (hnd : (ids ths).Nodup) (hA : A ∈ ths) (h : ConflictFreeL ths) :
    ConflictFreeL (updateTheory (lockConflicting ths A.conflicts_with) A.id
      (fun u => { u with status := TStatus.active })) := by
  unfold updateTheory lockConflicting
  rw [List.map_map]
  set G := (fun u : Theory =>
      if u.id = A.id then { u with status := TStatus.active } else u) ∘
    (fun t : Theory =>
      if t.id ∈ A.conflicts_with ∧ t.status = TStatus.active
      then { t with status := TStatus.locked } else t) with hG
  have hGt : ∀ t : Theory, G t =
      if t.id = A.id then { t with status := TStatus.active }
      else if t.id ∈ A.conflicts_with ∧ t.status = TStatus.active
      then { t with status := TStatus.locked } else t := by
    intro t
    simp only [hG, Function.comp_apply]
    by_cases c2 : t.id ∈ A.conflicts_with ∧ t.status = TStatus.active
    · rw [if_pos c2]
    · rw [if_neg c2]
  have Gid : ∀ t, (G t).id = t.id := by
    intro t
    rw [hGt t]
    split
    · rfl
    · split <;> rfl
  have Gcw : ∀ t, (G t).conflicts_with = t.conflicts_with := by
    intro t
    rw [hGt t]
    split
    · rfl
    · split <;> rfl
  have Gstat : ∀ t, (G t).status = TStatus.active →
      t.id = A.id ∨ (t.status = TStatus.active ∧ t.id ∉ A.conflicts_with) := by
    intro t ha
    rw [hGt t] at ha
    by_cases c1 : t.id = A.id
    · exact Or.inl c1
    · rw [if_neg c1] at ha
      by_cases c2 : t.id ∈ A.conflicts_with ∧ t.status = TStatus.active
      · rw [if_pos c2] at ha
        cases ha
      · rw [if_neg c2] at ha
        exact Or.inr ⟨ha, fun hin => c2 ⟨hin, ha⟩⟩
  intro t1' h1' t2' h2' hne hc12 hc21 hpair
  obtain ⟨t1, ht1, rfl⟩ := List.mem_map.mp h1'
  obtain ⟨t2, ht2, rfl⟩ := List.mem_map.mp h2'
  rw [Gid, Gid] at hne
  rw [Gid, Gcw] at hc12
  rw [Gid, Gcw] at hc21
  rcases Gstat t1 hpair.1 with h1A | ⟨hact1, hnin1⟩
  · rcases Gstat t2 hpair.2 with h2A | ⟨hact2, hnin2⟩
    · exact hne (h1A.trans h2A.symm)
    · have ht1A : t1 = A := theory_inj hnd ht1 hA h1A
      exact hnin2 (ht1A ▸ hc21)
  · rcases Gstat t2 hpair.2 with h2A | ⟨hact2, hnin2⟩
    · have ht2A : t2 = A := theory_inj hnd ht2 hA h2A
      exact hnin1 (ht2A ▸ hc12)
    · exact h t1 ht1 t2 ht2 hne hc12 hc21 ⟨hact1, hact2⟩

/-- updateTheory with an id-preserving update keeps the id list. -/
lemma ids_updateTheory (ths : List Theory) (tid : String)
    (f : Theory → Theory) (hf : ∀ t, (f t).id = t.id) :
    ids (updateTheory ths tid f) = ids ths := by
  unfold updateTheory
  apply ids_map
  intro t
  split
  · exact hf t
  · rfl

/-- The activate composite keeps the id list. -/
lemma ids_activate (ths : List Theory) (conf : List String) (tid : String) :
    ids (updateTheory (lockConflicting ths conf) tid
      (fun u => { u with status := TStatus.active })) = ids ths := by
  unfold updateTheory lockConflicting
  rw [List.map_map]
  apply ids_map
  intro t
  simp only [Function.comp_apply]
  split
  · split <;> rfl
  · split <;> rfl

/-- updateTheory with a status-preserving update keeps the invariant. -/
lemma conflictFreeL_updateTheory {ths : List Theory} (tid : String)
    (f : Theory → Theory) (hfid : ∀ t, (f t).id = t.id)
    (hfcw : ∀ t, (f t).conflicts_with = t.conflicts_with)
    (hfst : ∀ t, (f t).status = t.status)
    (h : ConflictFreeL ths) : ConflictFreeL (updateTheory ths tid f) := by
  unfold updateTheory
  apply conflictFreeL_map _ _ _ h
  · intro t
    split
    · exact hfid t
    · rfl
  · intro t
    split
    · exact hfcw t
    · rfl
  · intro t ha
    revert ha
    split
    · rw [hfst]
      exact id
    · exact id

/-- add_evidence_to_theory either leaves the theory list unchanged or
applies the single bump update. -/
lemma aett_board (b : Board) (eid tid : String) (rel : Relation) :
    (add_evidence_to_theory b eid tid rel).1.theories = b.theories
    ∨ (add_evidence_to_theory b eid tid rel).1.theories
      = updateTheory b.theories tid (bump rel) := by
  unfold add_evidence_to_theory
  by_cases hh : hasTheory b.theories tid = true
  · right
    rw [if_pos hh]
  · left
    rw [if_neg hh]

/-- add_evidence_to_theory keeps the id list. -/
lemma aett_ids (b : Board) (eid tid : String) (rel : Relation) :
    ids (add_evidence_to_theory b eid tid rel).1.theories
      = ids b.theories := by
  rcases aett_board b eid tid rel with h | h
  · rw [h]
  · rw [h]
    exact ids_updateTheory _ _ _ (bump_id rel)

/-- add_evidence_to_theory keeps the conflict invariant. -/
lemma aett_cf (b : Board) (eid tid : String) (rel : Relation)
    (hc : ConflictFreeL b.theories) :
    ConflictFreeL (add_evidence_to_theory b eid tid rel).1.theories := by
  rcases aett_board b eid tid rel with h | h
  · rw [h]
    exact hc
  · rw [h]
    exact conflictFreeL_updateTheory tid _ (bump_id rel) (bump_cw rel)
      (bump_status rel) hc

/-- add_evidence_to_theory keeps the stored evidence list. -/
lemma aett_evidence (b : Board) (eid tid : String) (rel : Relation) :
    (add_evidence_to_theory b eid tid rel).1.evidence = b.evidence := by
  unfold add_evidence_to_theory
  by_cases hh : hasTheory b.theories tid = true
  · rw [if_pos hh]
  · rw [if_neg hh]

/-- applyLinks keeps the id list and the conflict invariant. -/
lemma applyLinks_ids_cf (eid : String) :
    ∀ (ls : List (String × Relation)) (b : Board),
    ids (applyLinks b eid ls).1.theories = ids b.theories
    ∧ (ConflictFreeL b.theories →
        ConflictFreeL (applyLinks b eid ls).1.theories) := by
  intro ls
  induction ls with
  | nil => exact fun b => ⟨rfl, id⟩
  | cons p rest ih =>
    intro b
    obtain ⟨t0, r0⟩ := p
    unfold applyLinks
    refine ⟨?_, ?_⟩
    · exact ((ih _).1).trans (aett_ids b eid t0 r0)
    · intro hc
      exact (ih _).2 (aett_cf b eid t0 r0 hc)

/-- applyLinks keeps the stored evidence list. -/
lemma applyLinks_evidence (eid : String) :
    ∀ (ls : List (String × Relation)) (b : Board),
    (applyLinks b eid ls).1.evidence = b.evidence := by
  intro ls
  induction ls with
  | nil => exact fun b => rfl
  | cons p rest ih =>
    intro b
    obtain ⟨t0, r0⟩ := p
    unfold applyLinks
    exact (ih _).trans (aett_evidence b eid t0 r0)

/-- hasTheory only looks at the id list. -/
lemma hasTheory_ids (ths : List Theory) (tid : String) :
    hasTheory ths tid = (ids ths).any (fun s => s = tid) := by
  unfold hasTheory ids
  induction ths with
  | nil => rfl
  | cons h rest ih =>
    rw [List.map_cons, List.any_cons, List.any_cons, ih]

/-- Boards with equal id lists agree on hasTheory. -/
lemma hasTheory_congr {ths ths' : List Theory} (h : ids ths = ids ths')
    (tid : String) : hasTheory ths tid = hasTheory ths' tid := by
  rw [hasTheory_ids, hasTheory_ids, h]

/-- Every link entry naming an unknown theory contributes its
NotFoundError to the applyLinks error report. -/
lemma applyLinks_err (eid tid : String) (rel : Relation) :
    ∀ (ls : List (String × Relation)) (b : Board), (tid, rel) ∈ ls →
    hasTheory b.theories tid = false →
    ("NotFoundError: unknown theory " ++ tid) ∈ (applyLinks b eid ls).2 := by
  intro ls
  induction ls with
  | nil =>
    intro b hmem _
    cases hmem
  | cons p rest ih =>
    intro b hmem hmiss
    obtain ⟨t0, r0⟩ := p
    unfold applyLinks
    rcases List.mem_cons.mp hmem with heq | hrest
    · injection heq with h1 h2
      subst h1
      have hcond : ¬ hasTheory b.theories tid = true := by
        rw [hmiss]
        exact Bool.false_ne_true
      unfold add_evidence_to_theory
      rw [if_neg hcond]
      exact List.mem_append.mpr (Or.inl (List.mem_singleton.mpr rfl))
    · have hmiss' : hasTheory (add_evidence_to_theory b eid t0 r0).1.theories
          tid = false := by
        rw [hasTheory_congr (aett_ids b eid t0 r0) tid]
        exact hmiss
      exact List.mem_append.mpr (Or.inr (ih _ hrest hmiss'))

/-- updateTheory with an update that never introduces a fresh active
status keeps the invariant. -/
lemma conflictFreeL_updateTheory_act {ths : List Theory} (tid : String)
    (f : Theory → Theory) (hfid : ∀ t, (f t).id = t.id)
    (hfcw : ∀ t, (f t).conflicts_with = t.conflicts_with)
    (hfact : ∀ t, (f t).status = TStatus.active →
      t.status = TStatus.active)
    (h : ConflictFreeL ths) : ConflictFreeL (updateTheory ths tid f) := by
  unfold updateTheory
  apply conflictFreeL_map _ _ _ h
  · intro t
    split
    · exact hfid t
    · rfl
  · intro t
    split
    · exact hfcw t
    · rfl
  · intro t
    split
    · exact hfact t
    · exact id

/-- internalizeTheoryP keeps the id list and the conflict invariant on
the board component. -/
lemma internalizeP_board (b : Board) (s : Skills) (tid : String)
    (hw : (ids b.theories).Nodup) (hc : ConflictFreeL b.theories) :
    ids (internalizeTheoryP b s tid).1.theories = ids b.theories
    ∧ ConflictFreeL (internalizeTheoryP b s tid).1.theories := by
  unfold internalizeTheoryP
  cases hfind : b.getTheory tid with
  | none => exact ⟨rfl, hc⟩
  | some t =>
    dsimp only
    unfold Board.getTheory at hfind
    have ht : t ∈ b.theories := List.mem_of_find?_eq_some hfind
    have htid : t.id = tid := by simpa using List.find?_some hfind
    by_cases hst : t.status = TStatus.available
    · rw [if_pos hst]
      subst htid
      exact ⟨ids_activate b.theories t.conflicts_with t.id,
        conflictFreeL_activate hw ht hc⟩
    · rw [if_neg hst]
      exact ⟨rfl, hc⟩

/-- setTheoryStatus keeps the id list and the conflict invariant. -/
lemma setStatus_board (b : Board) (tid : String) (s : TStatus)
    (hw : (ids b.theories).Nodup) (hc : ConflictFreeL b.theories) :
    ids (setTheoryStatus b tid s).theories = ids b.theories
    ∧ ConflictFreeL (setTheoryStatus b tid s).theories := by
  unfold setTheoryStatus
  cases hfind : b.getTheory tid with
  | none => exact ⟨rfl, hc⟩
  | some t =>
    dsimp only
    unfold Board.getTheory at hfind
    have ht : t ∈ b.theories := List.mem_of_find?_eq_some hfind
    have htid : t.id = tid := by simpa using List.find?_some hfind
    by_cases hact : s = TStatus.active
    · rw [if_pos hact]
      subst htid
      exact ⟨ids_activate b.theories t.conflicts_with t.id,
        conflictFreeL_activate hw ht hc⟩
    · rw [if_neg hact]
      constructor
      · exact ids_updateTheory b.theories tid
          (fun u => { u with status := s }) (fun u => rfl)
      · refine conflictFreeL_updateTheory_act tid
          (fun u => { u with status := s }) (fun u => rfl) (fun u => rfl)
          ?_ hc
        intro u ha
        exact absurd ha hact

/-- One public operation keeps both the well-formedness of ids and the
conflict invariant. -/
lemma applyOp_preserves (b : Board) (op : BoardOp)
    (hw : WellFormedBoard b) (hc : ConflictFree b) :
    WellFormedBoard (applyOp b op) ∧ ConflictFree (applyOp b op) := by
  unfold WellFormedBoard ConflictFree at *
  cases op with
  | addEv e =>
    unfold applyOp addEvidence
    obtain ⟨h1, h2⟩ := applyLinks_ids_cf e.id e.links_to_theories
      { b with evidence := b.evidence ++ [e] }
    rw [h1]
    exact ⟨hw, h2 hc⟩
  | addEvToTheory eid tid rel =>
    unfold applyOp
    dsimp only
    rw [aett_ids b eid tid rel]
    exact ⟨hw, aett_cf b eid tid rel hc⟩
  | internalize tid =>
    unfold applyOp internalizeTheory
    obtain ⟨h1, h2⟩ := internalizeP_board b (fun _ => 0) tid hw hc
    rw [h1]
    exact ⟨hw, h2⟩
  | lock tid =>
    unfold applyOp lockTheory
    dsimp only
    constructor
    · rw [ids_updateTheory b.theories tid
        (fun t => { t with status := TStatus.locked }) (fun t => rfl)]
      exact hw
    · refine conflictFreeL_updateTheory_act tid
        (fun t => { t with status := TStatus.locked }) (fun t => rfl)
        (fun t => rfl) ?_ hc
      intro u ha
      cases ha
  | setStatus tid s =>
    unfold applyOp
    dsimp only
    obtain ⟨h1, h2⟩ := setStatus_board b tid s hw hc
    rw [h1]
    exact ⟨hw, h2⟩

/-- A whole operation sequence keeps both invariants. -/
lemma applyOps_preserves (ops : List BoardOp) :
    ∀ b : Board, WellFormedBoard b → ConflictFree b →
    WellFormedBoard (applyOps b ops) ∧ ConflictFree (applyOps b ops) := by
  induction ops with
  | nil => exact fun b hw hc => ⟨hw, hc⟩
  | cons op rest ih =>
    intro b hw hc
    obtain ⟨hw', hc'⟩ := applyOp_preserves b op hw hc
    exact ih (applyOp b op) hw' hc'

/-- C3: every board reachable from a conflict-free well-formed board
through the public operations (addEvidence, add_evidence_to_theory,
internalizeTheory, lockTheory, setTheoryStatus) keeps at most one of any
mutually conflicting set of theories active; a board with no active
theory is conflict-free; and internalizing A forces a currently active
conflicting B to status locked. -/
theorem board_conflict_invariant :
    (∀ (b : Board) (ops : List BoardOp), WellFormedBoard b →
      ConflictFree b → ConflictFree (applyOps b ops))
    ∧ (∀ b : Board, (∀ t ∈ b.theories, t.status ≠ TStatus.active) →
      ConflictFree b)
    ∧ (∀ (b : Board) (A B : Theory), WellFormedBoard b →
      A ∈ b.theories → B ∈ b.theories → A.status = TStatus.available →
      B.status = TStatus.active → B.id ∈ A.conflicts_with →
      (internalizeTheory b A.id).getStatus B.id = some TStatus.locked) := by
  refine ⟨fun b ops hw hc => (applyOps_preserves ops b hw hc).2,
    fun b hna => ?_, fun b A B hw hA hB hAst hBst hconf => ?_⟩
  · intro t1 ht1 t2 ht2 hne hc12 hc21 hpair
    exact hna t1 ht1 hpair.1
  · have hne : A ≠ B := by
      intro he
      rw [he, hBst] at hAst
      cases hAst
    have hBA : ¬ B.id = A.id := by
      intro he
      exact hne (theory_inj hw hB hA he).symm
    unfold internalizeTheory internalizeTheoryP
    have hfind : b.getTheory A.id = some A := by
      unfold Board.getTheory
      exact find?_id_of_mem hw hA
    rw [hfind]
    dsimp only
    rw [if_pos hAst]
    unfold Board.getStatus Board.getTheory
    dsimp only
    unfold updateTheory lockConflicting
    rw [List.map_map]
    have hg : ∀ t : Theory,
        (((fun u : Theory =>
            if u.id = A.id then { u with status := TStatus.active } else u) ∘
          (fun t : Theory =>
            if t.id ∈ A.conflicts_with ∧ t.status = TStatus.active
            then { t with status := TStatus.locked } else t)) t).id
          = t.id := by
      intro t
      simp only [Function.comp_apply]
      split
      · split <;> rfl
      · split <;> rfl
    rw [find?_map_of_mem hg hw hB]
    simp only [Function.comp_apply, Option.map_some]
    rw [if_pos (show B.id ∈ A.conflicts_with ∧ B.status = TStatus.active
      from ⟨hconf, hBst⟩)]
    rw [if_neg (show ¬({ B with status := TStatus.locked } : Theory).id
      = A.id from hBA)]
    rfl

/-- Witness for C3 on the two-theory fixture board: internalizing T1 over
the active conflicting T2 preserves the invariant and locks T2. -/
theorem board_conflict_invariant_witness :
    (WellFormedBoard bW ∧ ConflictFree bW)
    ∧ ConflictFree (applyOps bW [BoardOp.internalize "T1"])
    ∧ (internalizeTheory bW thA.id).getStatus thB.id
      = some TStatus.locked :=
  ⟨⟨by unfold WellFormedBoard ids; decide,
    by unfold ConflictFree ConflictFreeL; decide⟩,
   board_conflict_invariant.1 bW [BoardOp.internalize "T1"]
     (by unfold WellFormedBoard ids; decide)
     (by unfold ConflictFree ConflictFreeL; decide),
   board_conflict_invariant.2.2 bW thA thB
     (by unfold WellFormedBoard ids; decide) (by decide) (by decide)
     rfl rfl (by decide)⟩

/-- Unfolding one applyLinks step on the board component. -/
lemma applyLinks_cons (b : Board) (eid t0 : String) (r0 : Relation)
    (rest : List (String × Relation)) :
    (applyLinks b eid ((t0, r0) :: rest)).1
      = (applyLinks (add_evidence_to_theory b eid t0 r0).1 eid rest).1 := rfl

/-- A member theory's id always passes the hasTheory lookup. -/
lemma hasTheory_of_mem {ths : List Theory} {t : Theory} (ht : t ∈ ths) :
    hasTheory ths t.id = true := by
  rw [hasTheory_ids]
  exact List.any_eq_true.mpr ⟨t.id, List.mem_map_of_mem Theory.id ht,
    by simp⟩

/-- After applying a whole link list, each board theory's counters have
grown by exactly the number of entries naming it with the matching
relation; entries naming other or unknown theories leave it alone. -/
lemma applyLinks_counts (eid : String) :
    ∀ (ls : List (String × Relation)) (b : Board) (t : Theory),
    (ids b.theories).Nodup → t ∈ b.theories →
    ∃ u : Theory, (applyLinks b eid ls).1.getTheory t.id = some u
      ∧ u.evidence_count
        = t.evidence_count + linkCount ls t.id Relation.supports
      ∧ u.contradiction_count
        = t.contradiction_count + linkCount ls t.id Relation.contradicts := by
  intro ls
  induction ls with
  | nil =>
    intro b t hnd ht
    refine ⟨t, ?_, by simp [linkCount], by simp [linkCount]⟩
    unfold applyLinks Board.getTheory
    exact find?_id_of_mem hnd ht
  | cons p rest ih =>
    intro b t hnd ht
    obtain ⟨t0, r0⟩ := p
    rw [applyLinks_cons]
    by_cases hhas : hasTheory b.theories t0 = true
    · have hb' : (add_evidence_to_theory b eid t0 r0).1
          = ⟨updateTheory b.theories t0 (bump r0), b.evidence,
             b.links ++ [⟨eid, t0, r0⟩]⟩ := by
        unfold add_evidence_to_theory
        rw [if_pos hhas]
      have hnd' : (ids (updateTheory b.theories t0 (bump r0))).Nodup := by
        rw [ids_updateTheory b.theories t0 (bump r0) (bump_id r0)]
        exact hnd
      by_cases ht0 : t0 = t.id
      · have hmem' : bump r0 t ∈ updateTheory b.theories t0 (bump r0) := by
          have h0 : (if t.id = t0 then bump r0 t else t)
              ∈ updateTheory b.theories t0 (bump r0) :=
            List.mem_map_of_mem _ ht
          rwa [if_pos ht0.symm] at h0
        obtain ⟨u, hu, hue, huc⟩ := ih
          ⟨updateTheory b.theories t0 (bump r0), b.evidence,
           b.links ++ [⟨eid, t0, r0⟩]⟩ (bump r0 t) hnd' hmem'
        rw [← hb'] at hu
        rw [bump_id r0 t] at hu
        subst ht0
        refine ⟨u, hu, ?_, ?_⟩
        · cases r0
          · simp only [bump] at hue
            simp [linkCount, List.filter_cons] at hue ⊢
            omega
          · simp only [bump] at hue
            simp [linkCount, List.filter_cons] at hue ⊢
            omega
        · cases r0
          · simp only [bump] at huc
            simp [linkCount, List.filter_cons] at huc ⊢
            omega
          · simp only [bump] at huc
            simp [linkCount, List.filter_cons] at huc ⊢
            omega
      · have hne : ¬ t.id = t0 := fun h => ht0 h.symm
        have hmem' : t ∈ updateTheory b.theories t0 (bump r0) := by
          have h0 : (if t.id = t0 then bump r0 t else t)
              ∈ updateTheory b.theories t0 (bump r0) :=
            List.mem_map_of_mem _ ht
          rwa [if_neg hne] at h0
        obtain ⟨u, hu, hue, huc⟩ := ih
          ⟨updateTheory b.theories t0 (bump r0), b.evidence,
           b.links ++ [⟨eid, t0, r0⟩]⟩ t hnd' hmem'
        rw [← hb'] at hu
        refine ⟨u, hu, ?_, ?_⟩
        · simp [linkCount, List.filter_cons, ht0] at hue ⊢
          omega
        · simp [linkCount, List.filter_cons, ht0] at huc ⊢
          omega
    · have hb' : (add_evidence_to_theory b eid t0 r0).1 = b := by
        unfold add_evidence_to_theory
        rw [if_neg hhas]
      rw [hb']
      have hne : ¬ t0 = t.id := by
        intro h
        exact hhas (h ▸ hasTheory_of_mem ht)
      obtain ⟨u, hu, hue, huc⟩ := ih b t hnd ht
      refine ⟨u, hu, ?_, ?_⟩
      · simp [linkCount, List.filter_cons, hne] at hue ⊢
        omega
      · simp [linkCount, List.filter_cons, hne] at huc ⊢
        omega

/-- C7: addEvidence always stores the evidence itself; every
links_to_theories entry naming an unknown theory id signals a
NotFoundError while that linking is skipped; and every entry naming a
known theory is applied — for each theory on the board, evidence_count
grows by exactly the number of supports entries naming it and
contradiction_count by exactly the number of contradicts entries naming
it, whatever other entries (known or unknown) the evidence carries. -/
theorem addEvidence_decoupled :
    (∀ (b : Board) (e : Evidence), e ∈ (addEvidence b e).1.evidence)
    ∧ (∀ (b : Board) (e : Evidence) (tid : String) (rel : Relation),
        (tid, rel) ∈ e.links_to_theories →
        hasTheory b.theories tid = false →
        ("NotFoundError: unknown theory " ++ tid) ∈ (addEvidence b e).2)
    ∧ (∀ (b : Board) (t : Theory) (e : Evidence),
        WellFormedBoard b → t ∈ b.theories →
        ∃ u : Theory, (addEvidence b e).1.getTheory t.id = some u
          ∧ u.evidence_count = t.evidence_count
            + linkCount e.links_to_theories t.id Relation.supports
          ∧ u.contradiction_count = t.contradiction_count
            + linkCount e.links_to_theories t.id Relation.contradicts) := by
  refine ⟨fun b e => ?_, fun b e tid rel hmem hmiss => ?_,
    fun b t e hw ht => ?_⟩
  · unfold addEvidence
    rw [applyLinks_evidence e.id e.links_to_theories]
    exact List.mem_append.mpr (Or.inr (List.mem_singleton.mpr rfl))
  · unfold addEvidence
    exact applyLinks_err e.id tid rel e.links_to_theories _ hmem hmiss
  · unfold addEvidence
    exact applyLinks_counts e.id e.links_to_theories
      ⟨b.theories, b.evidence ++ [e], b.links⟩ t hw ht

/-- Witness for C7 on multi-link evidence: the unknown entry is reported
while the evidence is stored, and T2 receives exactly its one supports
and one contradicts increment with the other entries present. -/
theorem addEvidence_decoupled_witness :
    (WellFormedBoard bW ∧ thB ∈ bW.theories
      ∧ ("ghost_theory", Relation.supports) ∈ evMulti.links_to_theories
      ∧ hasTheory bW.theories "ghost_theory" = false)
    ∧ evMulti ∈ (addEvidence bW evMulti).1.evidence
    ∧ ("NotFoundError: unknown theory " ++ "ghost_theory")
      ∈ (addEvidence bW evMulti).2
    ∧ (∃ u : Theory, (addEvidence bW evMulti).1.getTheory thB.id = some u
        ∧ u.evidence_count = thB.evidence_count
          + linkCount evMulti.links_to_theories thB.id Relation.supports
        ∧ u.contradiction_count = thB.contradiction_count
          + linkCount evMulti.links_to_theories thB.id Relation.contradicts)
    ∧ linkCount evMulti.links_to_theories thB.id Relation.supports = 1
    ∧ linkCount evMulti.links_to_theories thB.id Relation.contradicts = 1 :=
  ⟨⟨by unfold WellFormedBoard ids; decide, by decide, by decide, by decide⟩,
   addEvidence_decoupled.1 bW evMulti,
   addEvidence_decoupled.2.1 bW evMulti "ghost_theory" Relation.supports
     (by decide) (by decide),
   addEvidence_decoupled.2.2 bW thB evMulti
     (by unfold WellFormedBoard ids; decide) (by decide),
   by decide, by decide⟩

/-- Decoding inverts encoding elementwise on lists. -/
lemma decList_encList {α : Type} (enc : α → DVal) (dec : DVal → Option α)
    (h : ∀ x, dec (enc x) = some x) (l : List α) :
    decList dec (encList enc l) = some l := by
  induction l with
  | nil => rfl
  | cons x rest ih =>
    show (List.mapM dec (List.map enc (x :: rest))) = some (x :: rest)
    have ih' : List.mapM dec (List.map enc rest) = some rest := ih
    rw [List.map_cons, List.mapM_cons, h x, ih']
    rfl

/-- Round trip for strings. -/
lemma decStr_rt (s : String) : decStr (DVal.str s) = some s := rfl

/-- Round trip for naturals. -/
lemma decNat_rt (n : Nat) : decNat (DVal.int (n : Int)) = some n := by
  unfold decNat
  dsimp only
  rw [if_pos (Int.natCast_nonneg n)]
  rw [Int.toNat_natCast]

/-- Round trip for (name, integer) pairs. -/
lemma decPair_rt (p : String × Int) : decPair (encPair p) = some p := rfl

/-- Round trip for theory statuses. -/
lemma decStatus_rt (s : TStatus) : decStatus (encStatus s) = some s := by
  cases s <;> rfl

/-- Round trip for link relations. -/
lemma decRelation_rt (r : Relation) : decRelation (encRelation r) = some r := by
  cases r <;> rfl

/-- Round trip for archetypes. -/
lemma decArchetype_rt (a : Archetype) :
    decArchetype (encArchetype a) = some a := by
  cases a <;> rfl

/-- Round trip for theory link entries. -/
lemma decTLink_rt (p : String × Relation) : decTLink (encTLink p) = some p := by
  obtain ⟨s, r⟩ := p
  unfold encTLink decTLink
  dsimp only
  rw [decRelation_rt]
  rfl

/-- Round trip for graph edges. -/
lemma decLink_rt (l : LinkRec) : decLink (encLink l) = some l := by
  unfold encLink decLink
  dsimp only
  rw [decRelation_rt]
  rfl

/-- Round trip for theories. -/
lemma decTheory_rt (t : Theory) : decTheory (encTheory t) = some t := by
  unfold encTheory decTheory
  dsimp only
  rw [decList_encList DVal.str decStr decStr_rt,
    decStatus_rt, decNat_rt, decNat_rt,
    decList_encList encPair decPair decPair_rt, decNat_rt]

/-- Round trip for evidence records. -/
lemma decEvidence_rt (e : Evidence) : decEvidence (encEvidence e) = some e := by
  unfold encEvidence decEvidence
  dsimp only
  rw [decList_encList DVal.str decStr decStr_rt,
    decList_encList DVal.str decStr decStr_rt,
    decList_encList encTLink decTLink decTLink_rt]

/-- C6: serialization followed by deserialization reconstructs the state
exactly — fromDict(toDict(state)) = state — for every PlayerState and for
every Board including its nested theory and evidence graphs and link
records. -/
theorem serialization_roundtrip :
    (∀ ps : PlayerState, PlayerState.fromDict ps.toDict = some ps)
    ∧ (∀ b : Board, Board.fromDict b.toDict = some b) := by
  constructor
  · intro ps
    unfold PlayerState.toDict PlayerState.fromDict
    dsimp only
    rw [if_pos rfl]
    rw [decList_encList encPair decPair decPair_rt,
      decArchetype_rt,
      decList_encList DVal.str decStr decStr_rt,
      decList_encList DVal.str decStr decStr_rt,
      decList_encList encPair decPair decPair_rt]
  · intro b
    unfold Board.toDict Board.fromDict
    dsimp only
    rw [if_pos rfl]
    rw [decList_encList encTheory decTheory decTheory_rt,
      decList_encList encEvidence decEvidence decEvidence_rt,
      decList_encList encLink decLink decLink_rt]
